import Mathlib

/-!
# Verification of the ToDoAgent core: TaskStore and ConversationHistory

This development gives a shallow embedding of the two in-memory core
components of the ToDoAgent repository:

* `TodoStorage` (`to_do_agent/backend/todo_storage.py`): a set of task-name
  strings with case-insensitive identity.  The Python `set[str]` is modelled
  as a `List String` (the list order standing for the set's iteration order);
  all reachable states are duplicate-free, and the theorems that need it take
  the corresponding hypothesis.
* `ChatHistoryManager` (`to_do_agent/domain/chat_history.py`): a dict from
  conversation id to conversation, modelled as an association list
  `List (String × ChatConversation)` (Python dicts preserve insertion order;
  keys are unique by construction of the operations).

Python's `str.lower()` is modelled by mapping `Char.toLower` over the string;
`uuid.uuid4()` and `datetime.utcnow()` are nondeterministic inputs of
`add_message` and are passed in as explicit arguments (`message_id`, `now`).
-/

namespace ToDoAgent

/-- Python `str.lower()` applied to a task name: lowercase every character
(`String.map Char.toLower`, written on the character list so that it reduces). -/
def lower (s : String) : String := ⟨s.data.map Char.toLower⟩

/-- Python `set.add`: inserting an element already present leaves the set
unchanged.  On the list model we append only when absent. -/
def setAdd (tasks : List String) (x : String) : List String :=
  if x ∈ tasks then tasks else tasks ++ [x]

/-- `TodoStorage.create_task`.  Mirrors:
`if task_name.lower() in {task.lower() for task in self.tasks}: raise ValueError(...)`,
then `self.tasks.add(task_name); return task_name`.
The raised `ValueError` (the spec's `DuplicateTaskError`) is the `.error` case,
carrying the formatted message; on success the new store and the returned name
are produced. -/
def create_task (tasks : List String) (task_name : String) :
    Except String (List String × String) :=
  if lower task_name ∈ tasks.map lower then
    .error ("Task '" ++ task_name ++ "' already exists")
  else
    .ok (setAdd tasks task_name, task_name)

/-- `TodoStorage.get_task`: linear search returning the stored name whose
lowercasing equals the query's lowercasing, else `None`. -/
def get_task (tasks : List String) (task_name : String) : Option String :=
  tasks.find? (fun task => lower task == lower task_name)

/-- `TodoStorage.get_all_tasks`: `list(self.tasks)`. -/
def get_all_tasks (tasks : List String) : List String := tasks

/-- `TodoStorage.update_task`.  The loop
`for task in self.tasks: if task.lower() == old_name.lower(): actual_old_name = task; break`
is `find?`.  The subsequent Python guard `if not actual_old_name: return None`
is truthiness on a string: it fires both when no task matched (`None`) and when
the matched task name is the empty string `""`; the `a = ""` branch models the
latter.  Then `new_name.lower()` is checked against the lowered names of all
tasks other than the matched one, raising `ValueError` on collision, else the
matched name is removed and `new_name` added. -/
def update_task (tasks : List String) (old_name new_name : String) :
    Except String (Option (List String × String)) :=
  match tasks.find? (fun task => lower task == lower old_name) with
  | none => .ok none
  | some a =>
    if a = "" then .ok none
    else if lower new_name ∈ (tasks.filter (fun task => task != a)).map lower then
      .error ("Task '" ++ new_name ++ "' already exists")
    else
      .ok (some (setAdd (tasks.filter (fun task => task != a)) new_name, new_name))

/-- `TodoStorage.delete_task`: iterate over the tasks, remove the first
case-insensitive match and return `True`; return `False` when no task matches.
The result pairs the store after the call with the returned boolean. -/
def delete_task (tasks : List String) (task_name : String) : List String × Bool :=
  match tasks with
  | [] => ([], false)
  | task :: rest =>
    if lower task = lower task_name then (rest, true)
    else
      let r := delete_task rest task_name
      (task :: r.1, r.2)

/-- `TodoStorage.task_exists`:
`task_name.lower() in {task.lower() for task in self.tasks}`. -/
def task_exists (tasks : List String) (task_name : String) : Bool :=
  (tasks.map lower).contains (lower task_name)

/-- One mutating call against the store (the suite of operations a caller may
issue; queries do not change the state). -/
inductive Op where
  | create (task_name : String)
  | update (old_name new_name : String)
  | delete (task_name : String)

/-- The store state after one operation: a raised `ValueError` propagates to
the caller before any mutation in the Python methods, so on `.error` (and on a
not-found `update`) the state is unchanged. -/
def applyOp (tasks : List String) : Op → List String
  | .create n =>
    match create_task tasks n with
    | .ok (ts, _) => ts
    | .error _ => tasks
  | .update o n =>
    match update_task tasks o n with
    | .ok (some (ts, _)) => ts
    | .ok none => tasks
    | .error _ => tasks
  | .delete n => (delete_task tasks n).1

/-- The case-insensitive uniqueness invariant: no two stored names share a
case-folded key. -/
def Uniq (tasks : List String) : Prop :=
  tasks.Pairwise (fun a b => lower a ≠ lower b)

/-! ## ChatHistoryManager (`to_do_agent/domain/chat_history.py`)

`uuid.uuid4()` and `datetime.utcnow()` are environment inputs: `add_message`
receives the generated `message_id` and the current time `now` as arguments.
Timestamps are abstract instants (`Nat`). -/

/-- `ChatMessage`: one utterance (id, content, role, timestamp). -/
structure ChatMessage where
  id : String
  content : String
  role : String
  timestamp : Nat
deriving DecidableEq

/-- `ChatConversation`: a conversation id, its ordered message list and the
two timestamps. -/
structure ChatConversation where
  conversation_id : String
  messages : List ChatMessage
  created_at : Nat
  updated_at : Nat
deriving DecidableEq

/-- The manager's `self._conversations` dict, as an insertion-ordered
association list (Python dicts preserve insertion order; keys are unique by
construction of the operations). -/
abbrev History := List (String × ChatConversation)

/-- The in-place mutation `conversation.messages.append(message)` followed by
`conversation.updated_at = datetime.utcnow()` on one conversation. -/
def appendMsg (message : ChatMessage) (now : Nat) (c : ChatConversation) :
    ChatConversation :=
  { c with messages := c.messages ++ [message], updated_at := now }

/-- `ChatHistoryManager.add_message`: build the message, create the owning
conversation on first use (`created_at = updated_at = now`, empty message
list), append the message to the conversation and refresh `updated_at`;
return the new store together with the returned `message_id`. -/
def add_message (h : History) (conversation_id content role : String)
    (message_id : String) (now : Nat) : History × String :=
  let message : ChatMessage :=
    { id := message_id, content := content, role := role, timestamp := now }
  let h1 : History :=
    if (h.lookup conversation_id).isSome then h
    else h ++ [(conversation_id,
      { conversation_id := conversation_id, messages := [],
        created_at := now, updated_at := now })]
  let h2 : History := h1.map (fun p =>
    if p.1 = conversation_id then (p.1, appendMsg message now p.2) else p)
  (h2, message_id)

/-- `ChatHistoryManager.get_conversation`: `self._conversations.get(cid)`. -/
def get_conversation (h : History) (conversation_id : String) :
    Option ChatConversation :=
  h.lookup conversation_id

/-- `ChatHistoryManager.get_all_conversations`:
`list(self._conversations.values())`. -/
def get_all_conversations (h : History) : List ChatConversation :=
  h.map Prod.snd

/-- `ChatHistoryManager.delete_conversation`: delete the key if present and
return whether it existed. -/
def delete_conversation (h : History) (conversation_id : String) :
    History × Bool :=
  if (h.lookup conversation_id).isSome then
    (h.filter (fun p => p.1 ≠ conversation_id), true)
  else (h, false)

/-- `ChatHistoryManager.clear_all_conversations`:
`count = len(self._conversations); self._conversations.clear(); return count`. -/
def clear_all_conversations (h : History) : History × Nat :=
  ([], h.length)

/-- `ChatHistoryManager.get_conversation_messages`:
`conversation.messages if conversation else []` (a pydantic model instance is
always truthy, so this is a `None` test). -/
def get_conversation_messages (h : History) (conversation_id : String) :
    List ChatMessage :=
  match get_conversation h conversation_id with
  | some conversation => conversation.messages
  | none => []

/-- `ChatHistoryManager.conversation_exists`:
`conversation_id in self._conversations`. -/
def conversation_exists (h : History) (conversation_id : String) : Bool :=
  (h.lookup conversation_id).isSome

/-- One append per element: the input data of a sequence of `add_message`
calls for a fixed conversation key (content, role, generated id, time). -/
structure MsgIn where
  content : String
  role : String
  id : String
  now : Nat

/-- The `ChatMessage` a single `add_message` call stores for the given input. -/
def mkMessage (m : MsgIn) : ChatMessage :=
  { id := m.id, content := m.content, role := m.role, timestamp := m.now }

/-- Fold a sequence of `add_message` calls for one conversation key. -/
def addMessages (h : History) (conversation_id : String) (ms : List MsgIn) :
    History :=
  ms.foldl (fun h m => (add_message h conversation_id m.content m.role m.id m.now).1) h

example : lower "Buy Milk" = "buy milk" := by decide
example : create_task ["Buy Milk"] "buy milk" =
    .error "Task 'buy milk' already exists" := by rfl
example : create_task [] "a" = .ok (["a"], "a") := by rfl
example : get_task ["Buy Milk"] "buy milk" = some "Buy Milk" := by rfl
example : update_task [""] "" "x" = .ok none := by rfl
example : update_task ["buy milk"] "Buy Milk" "buy organic milk" =
    .ok (some (["buy organic milk"], "buy organic milk")) := by rfl
example : delete_task ["a", "B"] "b" = (["a"], true) := by rfl
example : task_exists ["Buy Milk"] "BUY MILK" = true := by rfl

/-! ## Basic lemmas about the store operations -/

lemma contains_lower_iff (tasks : List String) (s : String) :
    ((tasks.map lower).contains s) = true ↔ ∃ t ∈ tasks, lower t = s := by
  simp [List.contains, List.elem_iff, List.mem_map]

lemma setAdd_of_not_mem {tasks : List String} {x : String} (h : x ∉ tasks) :
    setAdd tasks x = tasks ++ [x] := by
  simp [setAdd, h]

lemma applyOp_create_eq (tasks : List String) (n : String) :
    applyOp tasks (.create n) =
      if lower n ∈ tasks.map lower then tasks else setAdd tasks n := by
  simp only [applyOp, create_task]
  by_cases hc : lower n ∈ tasks.map lower <;> simp [hc]

lemma applyOp_update_eq (tasks : List String) (o n : String) :
    applyOp tasks (.update o n) =
      match tasks.find? (fun task => lower task == lower o) with
      | none => tasks
      | some a =>
        if a = "" then tasks
        else if lower n ∈ (tasks.filter (fun task => task != a)).map lower
          then tasks
          else setAdd (tasks.filter (fun task => task != a)) n := by
  simp only [applyOp, update_task]
  cases hf : tasks.find? (fun task => lower task == lower o) with
  | none => simp
  | some a =>
    by_cases ha : a = ""
    · simp [ha]
    · by_cases hc : lower n ∈ (tasks.filter (fun task => task != a)).map lower <;>
        simp [ha, hc]

lemma applyOp_update_none {tasks : List String} {o : String} (n : String)
    (hf : tasks.find? (fun task => lower task == lower o) = none) :
    applyOp tasks (.update o n) = tasks := by
  rw [applyOp_update_eq, hf]

lemma applyOp_update_some {tasks : List String} {o a : String} (n : String)
    (hf : tasks.find? (fun task => lower task == lower o) = some a) :
    applyOp tasks (.update o n) =
      if a = "" then tasks
      else if lower n ∈ (tasks.filter (fun task => task != a)).map lower
        then tasks
        else setAdd (tasks.filter (fun task => task != a)) n := by
  rw [applyOp_update_eq, hf]

lemma delete_task_sublist (tasks : List String) (n : String) :
    (delete_task tasks n).1.Sublist tasks := by
  induction tasks with
  | nil => simp [delete_task]
  | cons t ts ih =>
    simp only [delete_task]
    by_cases hb : lower t = lower n
    · simp [hb, List.sublist_cons_self]
    · simpa [hb] using List.Sublist.cons₂ t ih

/-! ## The case-insensitive uniqueness invariant (C1) -/

lemma uniq_append {tasks : List String} {n : String} (h : Uniq tasks)
    (hn : ∀ t ∈ tasks, lower t ≠ lower n) : Uniq (tasks ++ [n]) := by
  unfold Uniq at *
  rw [List.pairwise_append]
  refine ⟨h, List.pairwise_singleton _ _, ?_⟩
  intro a ha b hb
  rw [List.mem_singleton] at hb
  subst hb
  exact hn a ha

lemma uniq_sublist {t1 t2 : List String} (hs : t1.Sublist t2) (h : Uniq t2) : Uniq t1 :=
  List.Pairwise.sublist hs h

lemma uniq_applyOp (tasks : List String) (op : Op) (h : Uniq tasks) :
    Uniq (applyOp tasks op) := by
  cases op with
  | create n =>
    rw [applyOp_create_eq]
    by_cases hc : lower n ∈ tasks.map lower
    · simpa [hc] using h
    · have hne : ∀ t ∈ tasks, lower t ≠ lower n := by
        intro t ht heq
        exact hc (List.mem_map.2 ⟨t, ht, heq⟩)
      have hnm : n ∉ tasks := fun hmem => hne n hmem rfl
      rw [if_neg hc, setAdd_of_not_mem hnm]
      exact uniq_append h hne
  | update o n =>
    cases hf : tasks.find? (fun task => lower task == lower o) with
    | none => rw [applyOp_update_none n hf]; exact h
    | some a =>
      rw [applyOp_update_some n hf]
      by_cases ha : a = ""
      · simpa [ha] using h
      · rw [if_neg ha]
        by_cases hc : lower n ∈ (tasks.filter (fun task => task != a)).map lower
        · simpa [hc] using h
        · have hu : Uniq (tasks.filter (fun task => task != a)) :=
            uniq_sublist (List.filter_sublist tasks) h
          have hne : ∀ t ∈ tasks.filter (fun task => task != a), lower t ≠ lower n := by
            intro t ht heq
            exact hc (List.mem_map.2 ⟨t, ht, heq⟩)
          have hnm : n ∉ tasks.filter (fun task => task != a) := fun hmem =>
            hne n hmem rfl
          rw [if_neg hc, setAdd_of_not_mem hnm]
          exact uniq_append hu hne
  | delete n => exact uniq_sublist (delete_task_sublist tasks n) h

lemma uniq_foldl (ops : List Op) (tasks : List String) (h : Uniq tasks) :
    Uniq (ops.foldl applyOp tasks) := by
  induction ops generalizing tasks with
  | nil => exact h
  | cons op ops ih => exact ih _ (uniq_applyOp _ _ h)

lemma uniq_filter_length {tasks : List String} (h : Uniq tasks) (key : String) :
    (tasks.filter (fun t => lower t == key)).length ≤ 1 := by
  induction tasks with
  | nil => simp
  | cons t ts ih =>
    unfold Uniq at h
    rw [List.pairwise_cons] at h
    rw [List.filter_cons]
    by_cases hb : lower t = key
    · have hnil : ts.filter (fun x => lower x == key) = [] := by
        rw [List.filter_eq_nil_iff]
        intro b hb2
        have hne := h.1 b hb2
        simp only [← hb, beq_iff_eq]
        exact fun hfalse => hne hfalse.symm
      simp [hb, hnil]
    · have hb2 : (lower t == key) = false := by simpa using hb
      simpa [hb2] using ih h.2

/-- **C1**: starting from the empty store, after any sequence of
`create_task` / `update_task` / `delete_task` calls (successful or failing),
at most one stored name maps to any given case-folded (lowercased) key. -/
theorem uniqueness_invariant (ops : List Op) (key : String) :
    (((ops.foldl applyOp []).filter (fun t => lower t == key)).length) ≤ 1 :=
  uniq_filter_length (uniq_foldl ops [] List.Pairwise.nil) key

/-! ## create_task (C2) -/

/-- **C2**: `create_task` fails with the duplicate-task error exactly when some
stored name case-insensitively equals the submitted name, and the store is then
unchanged; otherwise it appends the name verbatim (exact submitted casing),
returns it, and makes no other change to the store. -/
theorem create_task_correct (tasks : List String) (name : String) :
    ((∃ t ∈ tasks, lower t = lower name) →
        create_task tasks name = .error ("Task '" ++ name ++ "' already exists") ∧
        applyOp tasks (.create name) = tasks) ∧
    ((∀ t ∈ tasks, lower t ≠ lower name) →
        create_task tasks name = .ok (tasks ++ [name], name) ∧
        applyOp tasks (.create name) = tasks ++ [name]) := by
  constructor
  · rintro ⟨t, ht, heq⟩
    have hc : lower name ∈ tasks.map lower := List.mem_map.2 ⟨t, ht, heq⟩
    refine ⟨by simp [create_task, hc], ?_⟩
    rw [applyOp_create_eq, if_pos hc]
  · intro hne
    have hc : lower name ∉ tasks.map lower := by
      intro hmem
      obtain ⟨t, ht, heq⟩ := List.mem_map.1 hmem
      exact hne t ht heq
    have hnm : name ∉ tasks := fun hmem => hne name hmem rfl
    refine ⟨by simp [create_task, hc, setAdd_of_not_mem hnm], ?_⟩
    rw [applyOp_create_eq, if_neg hc, setAdd_of_not_mem hnm]

/-- Witness for C2 at concrete inputs: a case-variant duplicate is rejected
and leaves the store unchanged; a fresh name is appended and returned. -/
theorem create_task_correct_witness :
    (create_task ["Buy Milk"] "buy milk" =
        .error "Task 'buy milk' already exists" ∧
      applyOp ["Buy Milk"] (.create "buy milk") = ["Buy Milk"]) ∧
    (create_task ["Buy Milk"] "eggs" = .ok (["Buy Milk", "eggs"], "eggs") ∧
      applyOp ["Buy Milk"] (.create "eggs") = ["Buy Milk", "eggs"]) :=
  ⟨(create_task_correct ["Buy Milk"] "buy milk").1 ⟨"Buy Milk", by decide, by decide⟩,
   (create_task_correct ["Buy Milk"] "eggs").2 (by decide)⟩

/-! ## update_task and the empty-string guard (C3, C4, C5) -/

/-- **C3**: the claim "update_task(old_name, new_name) returns None if and only
if no stored name case-insensitively equals old_name, including for an
empty-string task name" is violated by the code: with store `[""]` the stored
name `""` case-insensitively equals the query `""`, yet `update_task` answers
`None` (not-found), because the Python guard `if not actual_old_name` is a
truthiness test that treats the matched empty string like `None`. -/
theorem update_task_empty_string_divergence :
    ("" ∈ ([""] : List String) ∧ lower "" = lower "") ∧
    update_task [""] "" "new name" = .ok none ∧
    get_task [""] "" = some "" := by
  exact ⟨⟨by decide, rfl⟩, rfl, rfl⟩

/-- Counterexample to **C4** as stated: the store `["", "Y"]` holds exactly two
names that are distinct under case folding, yet `update_task "" "Y"` does not
fail with the duplicate error — the empty-string guard returns `None` first. -/
theorem update_task_collision_counterexample :
    lower "" ≠ lower "Y" ∧
    update_task ["", "Y"] "" "Y" = .ok none ∧
    ¬∃ e, update_task ["", "Y"] "" "Y" = .error e := by
  refine ⟨by decide, rfl, ?_⟩
  rintro ⟨e, he⟩
  exact Except.noConfusion he

/-- **C4** (amended: the entry matched by `old_name` must not be the empty
string, otherwise the truthiness guard returns not-found instead): whenever
`new_name` case-insensitively collides with a stored entry other than the
matched entry, `update_task` raises the duplicate error and the store is
unchanged. -/
theorem update_task_collision (tasks : List String) (old_name new_name a : String)
    (hf : tasks.find? (fun task => lower task == lower old_name) = some a)
    (ha : a ≠ "")
    (hcol : ∃ t ∈ tasks, t ≠ a ∧ lower t = lower new_name) :
    update_task tasks old_name new_name =
      .error ("Task '" ++ new_name ++ "' already exists") ∧
    applyOp tasks (.update old_name new_name) = tasks := by
  have hc : lower new_name ∈ (tasks.filter (fun task => task != a)).map lower := by
    obtain ⟨t, ht, hta, heq⟩ := hcol
    exact List.mem_map.2 ⟨t, List.mem_filter.2 ⟨ht, by simpa using hta⟩, heq⟩
  refine ⟨by simp [update_task, hf, ha, hc], ?_⟩
  rw [applyOp_update_some new_name hf, if_neg ha, if_pos hc]

/-- Witness for C4 (amended) on a store holding exactly `{X, Y}`: renaming `X`
to `Y` raises and the store still holds exactly `{X, Y}`. -/
theorem update_task_collision_witness :
    update_task ["X", "Y"] "X" "Y" = .error "Task 'Y' already exists" ∧
    applyOp ["X", "Y"] (.update "X" "Y") = ["X", "Y"] :=
  update_task_collision ["X", "Y"] "X" "Y" "X" (by rfl) (by decide)
    ⟨"Y", by decide, by decide, by decide⟩

/-- Counterexample to **C5** as stated: with store `[""]` the stored `""`
matches the queried old name `""` and the new name `"x"` collides with no
other entry, so the claim promises a successful rename; the code instead
answers `None` and leaves the store unchanged. -/
theorem update_task_success_counterexample :
    ([""] : List String).find? (fun task => lower task == lower "") = some "" ∧
    update_task [""] "" "x" = .ok none ∧
    applyOp [""] (.update "" "x") = [""] ∧
    ¬∃ ts r, update_task [""] "" "x" = .ok (some (ts, r)) := by
  refine ⟨rfl, rfl, rfl, ?_⟩
  rintro ⟨ts, r, h⟩
  have h2 : (Except.ok none : Except String (Option (List String × String)))
      = .ok (some (ts, r)) := h
  exact Option.noConfusion (Except.ok.inj h2)

/-- **C5** (amended: the entry matched by `old_name` must not be the empty
string, otherwise the truthiness guard answers not-found): when a stored entry
matches `old_name` case-insensitively and `new_name` collides with no stored
entry other than the matched one, `update_task` replaces the matched entry by
`new_name` in its as-given casing, returns `new_name`, and the store
cardinality is unchanged.  (A case-only rename of the matched entry satisfies
the no-collision hypothesis, so it succeeds.) -/
theorem update_task_success (tasks : List String) (old_name new_name a : String)
    (hnd : tasks.Nodup)
    (hf : tasks.find? (fun task => lower task == lower old_name) = some a)
    (ha : a ≠ "")
    (hnocol : ∀ t ∈ tasks, t ≠ a → lower t ≠ lower new_name) :
    update_task tasks old_name new_name =
      .ok (some (tasks.erase a ++ [new_name], new_name)) ∧
    applyOp tasks (.update old_name new_name) = tasks.erase a ++ [new_name] ∧
    (tasks.erase a ++ [new_name]).length = tasks.length := by
  have hfe : tasks.erase a = tasks.filter (fun task => task != a) :=
    List.Nodup.erase_eq_filter hnd a
  have hmem : a ∈ tasks := List.mem_of_find?_eq_some hf
  have hc : lower new_name ∉ (tasks.filter (fun task => task != a)).map lower := by
    intro hin
    obtain ⟨t, htf, heq⟩ := List.mem_map.1 hin
    obtain ⟨ht, htb⟩ := List.mem_filter.1 htf
    exact hnocol t ht (by simpa using htb) heq
  have hnm : new_name ∉ tasks.filter (fun task => task != a) := by
    intro hin
    obtain ⟨ht, htb⟩ := List.mem_filter.1 hin
    exact hnocol new_name ht (by simpa using htb) rfl
  refine ⟨?_, ?_, ?_⟩
  · simp [update_task, hf, ha, hc, setAdd_of_not_mem hnm, hfe]
  · rw [applyOp_update_some new_name hf, if_neg ha, if_neg hc,
      setAdd_of_not_mem hnm, hfe]
  · have hpos := List.length_pos_of_mem hmem
    simp [List.length_erase_of_mem hmem]
    omega

/-- Witness for C5 (amended) on the spec's concrete scenario: the store holds
`"buy milk"`; renaming `"Buy Milk"` (case-variant query) to
`"buy organic milk"` succeeds and preserves cardinality; a case-only rename of
the single entry also succeeds. -/
theorem update_task_success_witness :
    (update_task ["buy milk"] "Buy Milk" "buy organic milk" =
        .ok (some (["buy organic milk"], "buy organic milk")) ∧
      applyOp ["buy milk"] (.update "Buy Milk" "buy organic milk") =
        ["buy organic milk"] ∧
      ((["buy milk"] : List String).erase "buy milk" ++
        ["buy organic milk"]).length = 1) ∧
    (update_task ["buy milk"] "buy milk" "Buy Milk" =
        .ok (some (["Buy Milk"], "Buy Milk")) ∧
      applyOp ["buy milk"] (.update "buy milk" "Buy Milk") = ["Buy Milk"] ∧
      ((["buy milk"] : List String).erase "buy milk" ++ ["Buy Milk"]).length
        = 1) :=
  ⟨update_task_success ["buy milk"] "Buy Milk" "buy organic milk" "buy milk"
      (by decide) (by rfl) (by decide) (by decide),
   update_task_success ["buy milk"] "buy milk" "Buy Milk" "buy milk"
      (by decide) (by rfl) (by decide) (by decide)⟩

/-! ## get_task (C6) -/

lemma find_lower_unique :
    ∀ (tasks : List String), Uniq tasks → ∀ {a name : String}, a ∈ tasks →
      lower a = lower name →
      tasks.find? (fun task => lower task == lower name) = some a := by
  intro tasks
  induction tasks with
  | nil =>
    intro _ a name ha
    cases ha
  | cons t ts ih =>
    intro hU a name ha heq
    unfold Uniq at hU
    rw [List.pairwise_cons] at hU
    rcases List.mem_cons.1 ha with rfl | hmem
    · exact List.find?_cons_of_pos _ (by simpa using heq)
    · have hne : ¬((fun task => lower task == lower name) t = true) := by
        simp only [beq_iff_eq]
        intro hteq
        exact hU.1 a hmem (hteq.trans heq.symm)
      have hstep : List.find? (fun task => lower task == lower name) (t :: ts)
          = List.find? (fun task => lower task == lower name) ts :=
        List.find?_cons_of_neg ts hne
      rw [hstep]
      exact ih hU.2 hmem heq

/-- **C6**: on a store satisfying the uniqueness invariant, `get_task` returns
the stored (originally-cased) name whose case-folded form equals the
case-folded query when such an entry exists, and `None` otherwise.  It is a
pure total function: it raises no exception and does not change the store. -/
theorem get_task_correct (tasks : List String) (name : String) (hU : Uniq tasks) :
    (∀ a ∈ tasks, lower a = lower name → get_task tasks name = some a) ∧
    ((∀ t ∈ tasks, lower t ≠ lower name) → get_task tasks name = none) := by
  constructor
  · intro a ha heq
    exact find_lower_unique tasks hU ha heq
  · intro hne
    rw [get_task, List.find?_eq_none]
    intro x hx
    simpa using hne x hx

/-- Witness for C6: a case-variant query returns the stored casing; an absent
name returns `None`. -/
theorem get_task_correct_witness :
    get_task ["Buy Milk", "eggs"] "buy milk" = some "Buy Milk" ∧
    get_task ["Buy Milk", "eggs"] "cheese" = none :=
  ⟨(get_task_correct ["Buy Milk", "eggs"] "buy milk"
      (by unfold Uniq; decide)).1 "Buy Milk" (by decide) (by decide),
   (get_task_correct ["Buy Milk", "eggs"] "cheese"
      (by unfold Uniq; decide)).2 (by decide)⟩

/-! ## delete_task (C7) -/

lemma delete_task_of_mem :
    ∀ (tasks : List String), Uniq tasks → ∀ {a name : String}, a ∈ tasks →
      lower a = lower name →
      delete_task tasks name = (tasks.erase a, true) := by
  intro tasks
  induction tasks with
  | nil =>
    intro _ a name ha
    cases ha
  | cons t ts ih =>
    intro hU a name ha heq
    unfold Uniq at hU
    rw [List.pairwise_cons] at hU
    rcases List.mem_cons.1 ha with rfl | hmem
    · simp only [delete_task]
      rw [if_pos heq, List.erase_cons_head]
    · have hne : lower t ≠ lower name := fun hteq =>
        hU.1 a hmem (hteq.trans heq.symm)
      have hta : ¬(t == a) = true := by
        simp only [beq_iff_eq]
        rintro rfl
        exact hne heq
      simp only [delete_task]
      rw [if_neg hne, List.erase_cons_tail hta, ih hU.2 hmem heq]

lemma delete_task_of_not_mem :
    ∀ (tasks : List String) (name : String), (∀ t ∈ tasks, lower t ≠ lower name) →
      delete_task tasks name = (tasks, false) := by
  intro tasks
  induction tasks with
  | nil =>
    intro name _
    rfl
  | cons t ts ih =>
    intro name hne
    simp only [delete_task]
    rw [if_neg (hne t (List.mem_cons_self t ts)),
      ih name (fun x hx => hne x (List.mem_cons_of_mem t hx))]

/-- **C7**: on a store satisfying the uniqueness invariant, `delete_task`
removes exactly the one case-insensitively matching entry (all other entries
unchanged, in order) and returns `True` when a match exists; otherwise it
returns `False` and leaves the store unchanged.  It never raises. -/
theorem delete_task_correct (tasks : List String) (name : String) (hU : Uniq tasks) :
    (∀ a ∈ tasks, lower a = lower name →
        delete_task tasks name = (tasks.erase a, true)) ∧
    ((∀ t ∈ tasks, lower t ≠ lower name) →
        delete_task tasks name = (tasks, false)) :=
  ⟨fun _ ha heq => delete_task_of_mem tasks hU ha heq,
   fun hne => delete_task_of_not_mem tasks name hne⟩

/-- **C10**: the two lookup implementations agree: `get_task` (linear search
by lowercased equality) finds an entry exactly when `task_exists` (membership
of the lowercased query in the set of lowercased names) answers `true`, on
every store state. -/
theorem get_task_task_exists_agree (tasks : List String) (name : String) :
    (get_task tasks name).isSome = task_exists tasks name := by
  simp only [get_task, task_exists]
  rw [Bool.eq_iff_iff]
  constructor
  · intro hs
    obtain ⟨x, hx, hpx⟩ := List.find?_isSome.1 hs
    exact (contains_lower_iff tasks (lower name)).2 ⟨x, hx, by simpa using hpx⟩
  · intro hc
    obtain ⟨t, ht, heq⟩ := (contains_lower_iff tasks (lower name)).1 hc
    exact List.find?_isSome.2 ⟨t, ht, by simpa using heq⟩

/-! ## ChatHistoryManager lemmas (C8, C9) -/

lemma lookup_map_update (h : History) (cid : String)
    (g : ChatConversation → ChatConversation) :
    (h.map (fun p => if p.1 = cid then (p.1, g p.2) else p)).lookup cid
      = (h.lookup cid).map g := by
  induction h with
  | nil => rfl
  | cons p t ih =>
    obtain ⟨k, v⟩ := p
    by_cases hk : k = cid
    · subst hk
      simp [List.lookup_cons]
    · have hbk : (cid == k) = false := by
        simp
        exact fun hh => hk hh.symm
      simp only [List.map_cons]
      rw [if_neg hk]
      rw [List.lookup_cons, List.lookup_cons]
      simp only [hbk]
      exact ih

lemma lookup_map_appendMsg (hh : History) (cid : String) (message : ChatMessage)
    (now : Nat) :
    (hh.map (fun p =>
        if p.1 = cid then (p.1, appendMsg message now p.2) else p)).lookup cid
      = (hh.lookup cid).map (appendMsg message now) :=
  lookup_map_update hh cid (appendMsg message now)

lemma lookup_append_new (h : History) (cid : String) (c : ChatConversation)
    (hnone : h.lookup cid = none) :
    (h ++ [(cid, c)]).lookup cid = some c := by
  rw [List.lookup_append, hnone]
  simp

lemma get_messages_add (h : History) (cid content role mid : String) (now : Nat) :
    get_conversation_messages (add_message h cid content role mid now).1 cid
      = get_conversation_messages h cid ++ [⟨mid, content, role, now⟩] := by
  simp only [add_message, get_conversation_messages, get_conversation]
  by_cases hs : (h.lookup cid).isSome
  · rw [if_pos hs, lookup_map_appendMsg]
    obtain ⟨c, hc⟩ := Option.isSome_iff_exists.1 hs
    rw [hc]
    rfl
  · have hnone : h.lookup cid = none := Option.not_isSome_iff_eq_none.1 hs
    rw [if_neg hs, lookup_map_appendMsg,
      lookup_append_new h cid _ hnone, hnone]
    rfl

lemma get_messages_addMessages (h : History) (cid : String) (ms : List MsgIn) :
    get_conversation_messages (addMessages h cid ms) cid
      = get_conversation_messages h cid ++ ms.map mkMessage := by
  induction ms generalizing h with
  | nil => simp [addMessages]
  | cons m rest ih =>
    simp only [addMessages, List.foldl_cons] at ih ⊢
    rw [ih, get_messages_add]
    simp [mkMessage]

/-- **C8**: appending messages to a conversation key with `add_message` and
then reading `get_conversation_messages` yields exactly the previous messages
followed by all the appended ones, in insertion order, each carrying the given
content and role (and the generated id and timestamp); a key never used
yields the empty list, without any error. -/
theorem conversation_messages_correct (h : History) (cid unused : String)
    (ms : List MsgIn) (hnew : h.lookup unused = none) :
    get_conversation_messages (addMessages h cid ms) cid
      = get_conversation_messages h cid ++ ms.map mkMessage ∧
    get_conversation_messages h unused = [] := by
  refine ⟨get_messages_addMessages h cid ms, ?_⟩
  simp only [get_conversation_messages, get_conversation]
  rw [hnew]

/-- Witness for C8: two messages appended to `"c1"` from the empty manager
are returned in order with their content and role; the never-used key `"c2"`
yields the empty list. -/
theorem conversation_messages_correct_witness :
    get_conversation_messages
        (addMessages [] "c1" [⟨"m1", "user", "id1", 0⟩,
          ⟨"m2", "assistant", "id2", 1⟩]) "c1"
      = get_conversation_messages [] "c1" ++
        [⟨"id1", "m1", "user", 0⟩, ⟨"id2", "m2", "assistant", 1⟩] ∧
    get_conversation_messages [] "c2" = [] :=
  conversation_messages_correct [] "c1" "c2"
    [⟨"m1", "user", "id1", 0⟩, ⟨"m2", "assistant", "id2", 1⟩] rfl

/-- **C9**: `clear_all_conversations` returns how many conversations were
stored (the length of `get_all_conversations`), leaves
`get_all_conversations` empty, and a second clear immediately after returns
`0`. -/
theorem clear_all_conversations_correct (h : History) :
    (clear_all_conversations h).2 = (get_all_conversations h).length ∧
    get_all_conversations (clear_all_conversations h).1 = [] ∧
    (clear_all_conversations (clear_all_conversations h).1).2 = 0 :=
  ⟨by simp [clear_all_conversations, get_all_conversations], rfl, rfl⟩

/-- Witness for C7: deleting by a case-variant removes the matching entry and
answers `True`; deleting a name never created answers `False` and changes
nothing. -/
theorem delete_task_correct_witness :
    delete_task ["Buy Milk", "eggs"] "BUY MILK" = (["eggs"], true) ∧
    delete_task ["Buy Milk", "eggs"] "cheese" = (["Buy Milk", "eggs"], false) :=
  ⟨(delete_task_correct ["Buy Milk", "eggs"] "BUY MILK"
      (by unfold Uniq; decide)).1 "Buy Milk" (by decide) (by decide),
   (delete_task_correct ["Buy Milk", "eggs"] "cheese"
      (by unfold Uniq; decide)).2 (by decide)⟩

end ToDoAgent
